import Mathlib

/-!
# Shallow embedding of gtktetris.c (game-logic core)

This file embeds the game-logic core of src/gtktetris.c into Lean 4 and
proves the specification claims about it.

Modelling conventions:
* A board array int board[20][10] is modelled as a function Nat -> Nat -> Nat
  (row index, then column index); only indices y < 20, x < 10 are meaningful,
  all operations only touch that range.
* C int values that can overflow are modelled as mathematical Int together
  with an explicit two's-complement wrap (wrap32) at the one arithmetic
  operation where 32-bit overflow is possible (the score update).
* The clear_lines row-scan loop (which re-examines the same row index after a
  shift, via the y++ inside the downward for-loop) is modelled by clearAuxF,
  a fuel-indexed recursion whose fuel argument is a termination device only:
  clear_lines_res supplies fuel occBelow b 20 + 20, which is proved sufficient
  (theorem clearAuxF_spec needs exactly that bound).
* GTK side effects (drawing) are dropped; the g_timeout_add registrations are
  reflected by the timeout_period field (the period the recurring callback is
  currently registered at), and the gboolean returned by the tick callback
  (FALSE = remove the source, i.e. stop the clock) is the Bool component of
  game_loop's result.
* The random number drawn by secure_rand(7) inside new_piece is passed as an
  explicit argument (always < 7 in the real program).
-/

namespace GtkTetris

/-- A board array: row index, column index, stored int value. -/
abbrev Board := Nat → Nat → Nat

/-- Row y is full: every cell board[y][x], x < 10, is nonzero
(the inner loop of clear_lines). -/
def rowFull (b : Board) (y : Nat) : Bool :=
  (List.range 10).all fun x => b y x != 0

/-- The shift performed by clear_lines when row y is full: rows r with
1 <= r <= y receive row r-1 (the memcpy loop for yy = y downto 1), row 0 is
zeroed (the memset), rows above y are unchanged. -/
def shiftDown (b : Board) (y : Nat) : Board := fun r x =>
  if r = 0 then 0 else if r ≤ y then b (r - 1) x else b r x

/-- Number of occupied cells of row y (columns x < 10). -/
def rowOcc (b : Board) (y : Nat) : Nat :=
  ((List.range 10).filter fun x => b y x != 0).length

/-- Number of occupied cells in rows 0 .. yy-1. -/
def occBelow (b : Board) (yy : Nat) : Nat :=
  ((List.range yy).map fun r => rowOcc b r).sum

/-- The row-scan loop of clear_lines.  yy - 1 is the row currently examined
(the C loop variable y); when the row is full, both arrays are shifted and the
same row index is re-examined (the y++ before the loop's y--), otherwise the
scan moves up one row.  The first argument is fuel (termination device only;
see clearAuxF_spec for the sufficient bound). -/
def clearAuxF : Nat → Board → Board → Nat → Nat → Board × Board × Nat
  | 0, b, c, _, lines => (b, c, lines)
  | _ + 1, b, c, 0, lines => (b, c, lines)
  | fuel + 1, b, c, y + 1, lines =>
    if rowFull b y then
      clearAuxF fuel (shiftDown b y) (shiftDown c y) (y + 1) (lines + 1)
    else
      clearAuxF fuel b c y lines

/-- The relative offsets of the 7 tetrominoes (the shape fields of the
tetrominoes table), as (x, y) pairs. -/
def tetromino_shapes : List (List (Int × Int)) :=
  [[(0,0), (0,1), (1,0), (1,1)],   -- Square
   [(0,0), (0,1), (0,2), (0,3)],   -- Line
   [(0,0), (0,1), (1,1), (1,2)],   -- Z
   [(0,1), (0,2), (1,0), (1,1)],   -- S
   [(0,0), (0,1), (0,2), (1,1)],   -- T
   [(0,0), (1,0), (2,0), (2,1)],   -- L
   [(0,1), (1,1), (2,0), (2,1)]]   -- J

/-- shape of tetromino t, as a function from offset index (0..3) to the
(x, y) offset pair. -/
def shapeOf (t : Nat) : Nat → Int × Int := fun i =>
  ((tetromino_shapes.getD t []).getD i (0, 0))

/-- The mutable game state (struct GameState), restricted to the fields the
game logic reads or writes.  timeout_period records the period at which the
recurring tick callback is currently registered (g_timeout_add). -/
structure GameState where
  board : Board
  board_colors : Board
  current_x : Int
  current_y : Int
  current_piece : Nat → Int × Int
  current_type : Nat
  next_type : Nat
  score : Int
  level : Int
  game_speed : Int
  timeout_period : Int
  game_over : Bool
  paused : Bool

/-- init_game_state: memset to zero, then game_speed = 500, level = 1. -/
def init_game_state : GameState :=
  { board := fun _ _ => 0
    board_colors := fun _ _ => 0
    current_x := 0
    current_y := 0
    current_piece := fun _ => (0, 0)
    current_type := 0
    next_type := 0
    score := 0
    level := 1
    game_speed := 500
    timeout_period := 0
    game_over := false
    paused := false }

/-- new_piece: current type becomes the saved next type, the next type is the
freshly drawn random value rnd (secure_rand(7) in C), the anchor is reset to
(BOARD_WIDTH / 2 - 2, 0) = (3, 0) and the offsets are copied from the
catalog. -/
def new_piece (g : GameState) (rnd : Nat) : GameState :=
  { g with
    current_type := g.next_type
    next_type := rnd
    current_x := (10 : Int) / 2 - 2
    current_y := 0
    current_piece := shapeOf g.next_type }

/-- can_move(dx, dy): each of the 4 cells (current_x + piece[i].x + dx,
current_y + piece[i].y + dy) must pass the bounds and occupancy test of
can_move in C. -/
def can_move (g : GameState) (dx dy : Int) : Bool :=
  (List.range 4).all fun i =>
    !(decide (g.current_x + (g.current_piece i).1 + dx < 0) ||
      decide (10 ≤ g.current_x + (g.current_piece i).1 + dx) ||
      decide (20 ≤ g.current_y + (g.current_piece i).2 + dy) ||
      (decide (0 ≤ g.current_y + (g.current_piece i).2 + dy) &&
       decide (g.board (g.current_y + (g.current_piece i).2 + dy).toNat
                       (g.current_x + (g.current_piece i).1 + dx).toNat ≠ 0)))

/-- (y, x) is one of the (in-bounds) absolute cells of the active piece:
the guard of the assignments in land_piece.  The conditions y >= 0 and
x >= 0 of the C guard are expressed by equality with the Nat coordinates. -/
def isPieceCell (g : GameState) (y x : Nat) : Bool :=
  (List.range 4).any fun i =>
    decide (g.current_x + (g.current_piece i).1 = (x : Int)) &&
    decide (g.current_y + (g.current_piece i).2 = (y : Int)) &&
    decide (x < 10) && decide (y < 20)

/-- land_piece: write 1 into board and current_type + 1 into board_colors at
every in-bounds absolute cell of the active piece. -/
def land_piece (g : GameState) : GameState :=
  { g with
    board := fun y x => if isPieceCell g y x then 1 else g.board y x
    board_colors := fun y x =>
      if isPieceCell g y x then g.current_type + 1 else g.board_colors y x }

/-- INT_MAX for 32-bit int. -/
def INT_MAX : Int := 2147483647

/-- Two's-complement wrap of a 32-bit signed int computation. -/
def wrap32 (z : Int) : Int := (z + 2147483648) % 4294967296 - 2147483648

/-- The board/color shifting part of clear_lines, returning the two updated
arrays and the number of lines cleared.  The fuel occBelow + 20 is sufficient
(clearAuxF_spec). -/
def clear_lines_res (g : GameState) : Board × Board × Nat :=
  clearAuxF (occBelow g.board 20 + 20) g.board g.board_colors 20 0

/-- clear_lines: the row scan, then the score update
score = (score + lines*100*level > INT_MAX) ? INT_MAX : score + lines*100*level
(the sum is a 32-bit int computation, hence the wrap32), then the level-up
check; on a level change the game speed becomes 500 / level and the tick
source is re-registered at that period. -/
def clear_lines (g : GameState) : GameState :=
  let r := clear_lines_res g
  let lines : Int := (r.2.2 : Int)
  let s := wrap32 (g.score + lines * 100 * g.level)
  let s1 := if s > INT_MAX then INT_MAX else s
  let g1 := { g with board := r.1, board_colors := r.2.1, score := s1 }
  if s1 ≥ g1.level * 5000 ∧ g1.level < 10 then
    { g1 with
      level := g1.level + 1
      game_speed := 500 / (g1.level + 1)
      timeout_period := 500 / (g1.level + 1) }
  else g1

/-- The score stored by clear_lines (the value of the conditional
expression), written out as a standalone function of the incoming state. -/
def s1Of (g : GameState) : Int :=
  if wrap32 (g.score + ((clear_lines_res g).2.2 : Int) * 100 * g.level) > INT_MAX
  then INT_MAX
  else wrap32 (g.score + ((clear_lines_res g).2.2 : Int) * 100 * g.level)

/-- game_loop (the tick callback).  The Bool result is the gboolean returned
to GTK: false removes the timeout source (stops the clock).  rnd is the
random type drawn by the new_piece call on a landing. -/
def game_loop (g : GameState) (rnd : Nat) : GameState × Bool :=
  if g.paused || g.game_over then (g, true)
  else if can_move g 0 1 then ({ g with current_y := g.current_y + 1 }, true)
  else
    let g1 := new_piece (clear_lines (land_piece g)) rnd
    if can_move g1 0 0 then (g1, true)
    else ({ g1 with game_over := true }, false)

/-- toggle_pause: flip the paused flag unless the game is over. -/
def toggle_pause (g : GameState) : GameState :=
  if g.game_over then g else { g with paused := !g.paused }

/-- The candidate state produced by the rotation transform
(x, y) -> (y, -x) applied to every offset (the Up branch of key_press,
before the can_move test). -/
def rotate_cand (g : GameState) : GameState :=
  { g with
    current_piece := fun i => ((g.current_piece i).2, -(g.current_piece i).1) }

/-- The net effect of the Up branch of key_press: the candidate offsets are
kept when can_move(0,0) holds for them, otherwise the memcpy from temp_piece
restores the pre-rotation offsets. -/
def rotate_piece (g : GameState) : GameState :=
  if can_move (rotate_cand g) 0 0 then rotate_cand g else g

/-- The keys the key_press handler reacts to. -/
inductive Key where
  | left | right | down | up | p | other
  deriving DecidableEq

/-- key_press: ignore everything when the game is over; the p key toggles
pause; when (now) paused nothing else happens; otherwise the arrow keys move
or rotate the active piece, guarded by can_move. -/
def key_press (g : GameState) (k : Key) : GameState :=
  if g.game_over then g
  else
    let g0 := if k = Key.p then toggle_pause g else g
    if g0.paused then g0
    else
      match k with
      | Key.left => if can_move g0 (-1) 0 then { g0 with current_x := g0.current_x - 1 } else g0
      | Key.right => if can_move g0 1 0 then { g0 with current_x := g0.current_x + 1 } else g0
      | Key.down => if can_move g0 0 1 then { g0 with current_y := g0.current_y + 1 } else g0
      | Key.up => rotate_piece g0
      | _ => g0

/-- start_new_game: init_game_state, re-register the tick source at
game_speed, then new_piece (with next_type = 0 after the memset and a fresh
random draw r). -/
def start_new_game (r : Nat) : GameState :=
  new_piece { init_game_state with timeout_period := init_game_state.game_speed } r

/-- The states the running program can be in: the state built by main
(init, next_type = rand, new_piece, g_timeout_add), closed under the New
Game button, the Pause button, key presses and clock ticks.  All random
draws come from secure_rand(7), hence are < 7. -/
inductive Reachable : GameState → Prop where
  | boot (r0 r1 : Nat) (h0 : r0 < 7) (h1 : r1 < 7) :
      Reachable { new_piece { init_game_state with next_type := r0 } r1 with
                    timeout_period := 500 }
  | newgame (r : Nat) (hr : r < 7) (g : GameState) (hg : Reachable g) :
      Reachable (start_new_game r)
  | pauseButton (g : GameState) (hg : Reachable g) :
      Reachable (toggle_pause g)
  | key (g : GameState) (k : Key) (hg : Reachable g) :
      Reachable (key_press g k)
  | tick (g : GameState) (r : Nat) (hr : r < 7) (hg : Reachable g) :
      Reachable ((game_loop g r).1)

/-- Row y of a board, restricted to its 10 real columns. -/
def rowOf (b : Board) (y : Nat) : List Nat :=
  (List.range 10).map fun x => b y x

/-- The first n rows of a board as lists. -/
def topRows (b : Board) (n : Nat) : List (List Nat) :=
  (List.range n).map fun y => rowOf b y

/-- A (list) row is full when all its cells are nonzero. -/
def isFullRow (r : List Nat) : Bool := r.all fun a => a != 0

/-- The all-empty row. -/
def zeroRow : List Nat := List.replicate 10 0

/-- Number of full rows in a list of rows. -/
def fullCount (L : List (List Nat)) : Nat := L.countP fun row => isFullRow row

/-- The non-full rows, in order. -/
def keepRows (L : List (List Nat)) : List (List Nat) :=
  L.filter fun row => !isFullRow row

/-- Total number of occupied cells in a list of rows. -/
def occRows (L : List (List Nat)) : Nat :=
  (L.map fun row => (row.filter fun a => a != 0).length).sum

/-- The cell invariant of the data model: occupied iff color index nonzero,
and the color index is at most 7. -/
def CellInv (g : GameState) : Prop :=
  ∀ y x : Nat, (g.board y x ≠ 0 ↔ g.board_colors y x ≠ 0) ∧ g.board_colors y x ≤ 7

/-- The state invariant: cell invariant, piece types in 0..6, level in
1..10. -/
def Inv (g : GameState) : Prop :=
  CellInv g ∧ g.current_type < 7 ∧ g.next_type < 7 ∧ 1 ≤ g.level ∧ g.level ≤ 10

/-! ## Concrete states used to exercise the definitions -/

/-- A state about to overflow the score: bottom row full, score close to
INT_MAX, level 10. -/
def g_c2 : GameState :=
  { board := fun y _ => if y = 19 then 1 else 0
    board_colors := fun y _ => if y = 19 then 1 else 0
    current_x := 3
    current_y := 0
    current_piece := shapeOf 0
    current_type := 0
    next_type := 1
    score := 2147483000
    level := 10
    game_speed := 50
    timeout_period := 50
    game_over := false
    paused := false }

/-- The state produced by spawning the square piece (type 0) on the empty
board: new_piece applied to the freshly initialized state whose saved next
type is 0. -/
def gSq : GameState :=
  new_piece { init_game_state with next_type := 0 } 1

/-- One MoveDown command. -/
def stepDown (g : GameState) : GameState := key_press g Key.down

/-- The square piece resting on the floor: anchor (3, 18), empty board. -/
def gBottom : GameState :=
  { board := fun _ _ => 0
    board_colors := fun _ _ => 0
    current_x := 3
    current_y := 18
    current_piece := shapeOf 0
    current_type := 0
    next_type := 1
    score := 0
    level := 1
    game_speed := 500
    timeout_period := 500
    game_over := false
    paused := false }

/-- A paused state. -/
def gPaused : GameState := { gBottom with paused := true }

/-- A game-over state. -/
def gOver : GameState := { gBottom with game_over := true }

/-- The T piece (type 4) in the middle of the empty board, where all four
rotations are unobstructed. -/
def gRot : GameState :=
  { board := fun _ _ => 0
    board_colors := fun _ _ => 0
    current_x := 4
    current_y := 5
    current_piece := shapeOf 4
    current_type := 4
    next_type := 1
    score := 0
    level := 1
    game_speed := 500
    timeout_period := 500
    game_over := false
    paused := false }

/-- The state built by main with random draws 0 and 1. -/
def gBoot : GameState :=
  { new_piece { init_game_state with next_type := 0 } 1 with timeout_period := 500 }

/-! ## Row and board lemmas -/

theorem topRows_zero (b : Board) : topRows b 0 = [] := by
  simp [topRows]

theorem topRows_succ (b : Board) (n : Nat) :
    topRows b (n + 1) = topRows b n ++ [rowOf b n] := by
  simp [topRows, List.range_succ]

theorem isFullRow_rowOf (b : Board) (y : Nat) :
    isFullRow (rowOf b y) = rowFull b y := by
  simp only [isFullRow, rowOf, rowFull, List.all_map]
  rfl

theorem length_rowOf (b : Board) (y : Nat) : (rowOf b y).length = 10 := by
  simp [rowOf]

theorem shiftDown_succ_le (b : Board) (y r : Nat) (h : r + 1 ≤ y) :
    shiftDown b y (r + 1) = b r := by
  funext x
  simp [shiftDown, h]

theorem shiftDown_gt (b : Board) (y r : Nat) (h : y < r) (x : Nat) :
    shiftDown b y r x = b r x := by
  have h0 : ¬(r = 0) := by omega
  have h1 : ¬(r ≤ y) := by omega
  simp [shiftDown, h0, h1]

theorem rowOf_shiftDown_zero (b : Board) (y : Nat) :
    rowOf (shiftDown b y) 0 = zeroRow := by
  have : (fun x => shiftDown b y 0 x) = fun _ : Nat => 0 := by
    funext x
    simp [shiftDown]
  simp [rowOf, zeroRow, this, List.map_const']

theorem rowOf_shiftDown_succ (b : Board) (y r : Nat) (h : r + 1 ≤ y) :
    rowOf (shiftDown b y) (r + 1) = rowOf b r := by
  simp [rowOf, shiftDown_succ_le b y r h]

theorem topRows_shiftDown (b : Board) (y : Nat) :
    topRows (shiftDown b y) (y + 1) = zeroRow :: topRows b y := by
  have h1 : topRows (shiftDown b y) (y + 1) =
      rowOf (shiftDown b y) 0 ::
        (List.range y).map fun r => rowOf (shiftDown b y) (r + 1) := by
    simp only [topRows, List.range_succ_eq_map, List.map_cons, List.map_map]
    rfl
  rw [h1, rowOf_shiftDown_zero]
  have h2 : ((List.range y).map fun r => rowOf (shiftDown b y) (r + 1)) =
      (List.range y).map fun r => rowOf b r := by
    apply List.map_congr_left
    intro r hr
    exact rowOf_shiftDown_succ b y r (by simpa [Nat.succ_le] using List.mem_range.mp hr)
  rw [h2]
  rfl

theorem isFullRow_zeroRow : isFullRow zeroRow = false := by decide

theorem rowOcc_eq_of_full (b : Board) (y : Nat) (h : rowFull b y = true) :
    rowOcc b y = 10 := by
  have hf : ((List.range 10).filter fun x => b y x != 0) = List.range 10 := by
    rw [List.filter_eq_self]
    intro a ha
    exact (List.all_eq_true.mp h) a ha
  simp [rowOcc, hf]

theorem rowOcc_shiftDown_zero (b : Board) (y : Nat) :
    rowOcc (shiftDown b y) 0 = 0 := by
  have hf : ((List.range 10).filter fun x => shiftDown b y 0 x != 0) = [] := by
    rw [List.filter_eq_nil_iff]
    intro a ha
    simp [shiftDown]
  simp [rowOcc, hf]

theorem rowOcc_shiftDown_succ (b : Board) (y r : Nat) (h : r + 1 ≤ y) :
    rowOcc (shiftDown b y) (r + 1) = rowOcc b r := by
  simp [rowOcc, shiftDown_succ_le b y r h]

theorem occBelow_succ (b : Board) (n : Nat) :
    occBelow b (n + 1) = occBelow b n + rowOcc b n := by
  simp [occBelow, List.range_succ]

theorem occBelow_shiftDown (b : Board) (y : Nat) :
    occBelow (shiftDown b y) (y + 1) = occBelow b y := by
  have h1 : occBelow (shiftDown b y) (y + 1) =
      rowOcc (shiftDown b y) 0 +
        ((List.range y).map fun r => rowOcc (shiftDown b y) (r + 1)).sum := by
    simp only [occBelow, List.range_succ_eq_map, List.map_cons, List.map_map, List.sum_cons]
    rfl
  rw [h1, rowOcc_shiftDown_zero]
  have h2 : ((List.range y).map fun r => rowOcc (shiftDown b y) (r + 1)) =
      (List.range y).map fun r => rowOcc b r := by
    apply List.map_congr_left
    intro r hr
    exact rowOcc_shiftDown_succ b y r (by simpa [Nat.succ_le] using List.mem_range.mp hr)
  rw [h2]
  simp [occBelow]

/-! ## The clear_lines scan: full characterization -/

/-- The row scan clears exactly the full rows: starting the scan at row
yy - 1 with a full fuel budget, the returned line count adds the number of
full rows among rows 0 .. yy-1, the first yy rows of the result are that many
empty rows on top of the surviving rows in order, and all rows from yy up are
untouched. -/
theorem clearAuxF_spec :
    ∀ (fuel : Nat) (b c : Board) (yy lines : Nat),
      occBelow b yy + yy ≤ fuel →
      (clearAuxF fuel b c yy lines).2.2 = lines + fullCount (topRows b yy) ∧
      topRows (clearAuxF fuel b c yy lines).1 yy =
        List.replicate (fullCount (topRows b yy)) zeroRow ++ keepRows (topRows b yy) ∧
      (∀ y x, yy ≤ y → (clearAuxF fuel b c yy lines).1 y x = b y x) := by
  intro fuel
  induction fuel with
  | zero =>
    intro b c yy lines h
    have hyy : yy = 0 := by omega
    subst hyy
    simp [clearAuxF, topRows_zero, fullCount, keepRows]
  | succ fuel ih =>
    intro b c yy lines h
    match yy with
    | 0 =>
      simp [clearAuxF, topRows_zero, fullCount, keepRows]
    | y + 1 =>
      by_cases hf : rowFull b y = true
      · -- full row: shift both arrays, stay at the same row index
        have hstep : clearAuxF (fuel + 1) b c (y + 1) lines =
            clearAuxF fuel (shiftDown b y) (shiftDown c y) (y + 1) (lines + 1) := by
          simp [clearAuxF, hf]
        have hocc : occBelow (shiftDown b y) (y + 1) + (y + 1) ≤ fuel := by
          have h1 := occBelow_shiftDown b y
          have h2 := occBelow_succ b y
          have h3 := rowOcc_eq_of_full b y hf
          omega
        obtain ⟨ih1, ih2, ih3⟩ := ih (shiftDown b y) (shiftDown c y) (y + 1) (lines + 1) hocc
        -- relate counts and rows of the shifted board to the original board
        have hrows : topRows (shiftDown b y) (y + 1) = zeroRow :: topRows b y :=
          topRows_shiftDown b y
        have hcount : fullCount (topRows (shiftDown b y) (y + 1)) = fullCount (topRows b y) := by
          rw [hrows]
          simp [fullCount, List.countP_cons, isFullRow_zeroRow]
        have hcount2 : fullCount (topRows b (y + 1)) = fullCount (topRows b y) + 1 := by
          rw [topRows_succ]
          simp [fullCount, List.countP_append, List.countP_cons, isFullRow_rowOf, hf]
        have hkeep : keepRows (topRows (shiftDown b y) (y + 1)) =
            zeroRow :: keepRows (topRows b y) := by
          rw [hrows]
          simp [keepRows, List.filter_cons, isFullRow_zeroRow]
        have hkeep2 : keepRows (topRows b (y + 1)) = keepRows (topRows b y) := by
          rw [topRows_succ]
          simp [keepRows, List.filter_append, List.filter_cons, isFullRow_rowOf, hf]
        refine ⟨?_, ?_, ?_⟩
        · rw [hstep, ih1, hcount, hcount2]
          omega
        · rw [hstep, ih2, hcount, hkeep, hcount2, hkeep2, List.replicate_succ']
          simp [List.append_assoc]
        · intro yv x hyv
          rw [hstep, ih3 yv x hyv, shiftDown_gt b y yv (by omega) x]
      · -- row not full: move the scan up one row
        have hf2 : rowFull b y = false := by
          cases hb : rowFull b y
          · rfl
          · exact absurd hb hf
        have hstep : clearAuxF (fuel + 1) b c (y + 1) lines =
            clearAuxF fuel b c y lines := by
          simp [clearAuxF, hf2]
        have hocc : occBelow b y + y ≤ fuel := by
          have h2 := occBelow_succ b y
          omega
        obtain ⟨ih1, ih2, ih3⟩ := ih b c y lines hocc
        have hcount2 : fullCount (topRows b (y + 1)) = fullCount (topRows b y) := by
          rw [topRows_succ]
          simp [fullCount, List.countP_append, List.countP_cons, isFullRow_rowOf, hf2]
        have hkeep2 : keepRows (topRows b (y + 1)) = keepRows (topRows b y) ++ [rowOf b y] := by
          rw [topRows_succ]
          simp [keepRows, List.filter_append, List.filter_cons, isFullRow_rowOf, hf2]
        refine ⟨?_, ?_, ?_⟩
        · rw [hstep, ih1, hcount2]
        · rw [hstep, topRows_succ, hcount2, hkeep2]
          have hrow : rowOf (clearAuxF fuel b c y lines).1 y = rowOf b y := by
            simp only [rowOf]
            apply List.map_congr_left
            intro x hx
            exact ih3 y x (Nat.le_refl y)
          rw [ih2, hrow, List.append_assoc]
        · intro yv x hyv
          rw [hstep, ih3 yv x (by omega)]

/-! ## Occupied-cell counting -/

theorem occRows_append (A B : List (List Nat)) :
    occRows (A ++ B) = occRows A + occRows B := by
  simp [occRows]

theorem occRows_replicate_zeroRow (k : Nat) :
    occRows (List.replicate k zeroRow) = 0 := by
  induction k with
  | zero => rfl
  | succ k ih =>
    rw [List.replicate_succ]
    have hz : ((zeroRow.filter fun a => a != 0).length) = 0 := by decide
    simp only [occRows, List.map_cons, List.sum_cons, hz] at ih ⊢
    omega

theorem occRows_keep (L : List (List Nat)) (hL : ∀ r ∈ L, r.length = 10) :
    occRows (keepRows L) + 10 * fullCount L = occRows L := by
  induction L with
  | nil => simp [occRows, keepRows, fullCount]
  | cons r L ih =>
    have hr : r.length = 10 := hL r (List.mem_cons_self r L)
    have ih2 := ih fun s hs => hL s (List.mem_cons_of_mem r hs)
    by_cases hf : isFullRow r = true
    · have hocc : (r.filter fun a => a != 0).length = 10 := by
        have hself : (r.filter fun a => a != 0) = r :=
          List.filter_eq_self.mpr fun a ha => List.all_eq_true.mp hf a ha
        rw [hself, hr]
      have e1 : keepRows (r :: L) = keepRows L := by
        simp [keepRows, List.filter_cons, hf]
      have e2 : fullCount (r :: L) = fullCount L + 1 := by
        simp [fullCount, List.countP_cons, hf]
      have e3 : occRows (r :: L) = 10 + occRows L := by
        simp only [occRows, List.map_cons, List.sum_cons, hocc]
      rw [e1, e2, e3]
      omega
    · have hf2 : isFullRow r = false := by
        cases hb : isFullRow r
        · rfl
        · exact absurd hb hf
      have e1 : keepRows (r :: L) = r :: keepRows L := by
        simp [keepRows, List.filter_cons, hf2]
      have e2 : fullCount (r :: L) = fullCount L := by
        simp [fullCount, List.countP_cons, hf2]
      have e3 : occRows (r :: L) = (r.filter fun a => a != 0).length + occRows L := by
        simp only [occRows, List.map_cons, List.sum_cons]
      have e4 : occRows (r :: keepRows L) =
          (r.filter fun a => a != 0).length + occRows (keepRows L) := by
        simp only [occRows, List.map_cons, List.sum_cons]
      rw [e1, e2, e3, e4]
      omega

theorem rows_length_10 (b : Board) : ∀ r ∈ topRows b 20, r.length = 10 := by
  intro r hr
  simp only [topRows, List.mem_map] at hr
  obtain ⟨y, hy, rfl⟩ := hr
  exact length_rowOf b y

/-- The board produced by clear_lines is the first component of
clear_lines_res (the level-up branch does not touch the board). -/
theorem clear_lines_board_eq (g : GameState) :
    (clear_lines g).board = (clear_lines_res g).1 := by
  simp only [clear_lines]
  split <;> split <;> rfl

/-- Likewise for the colors array. -/
theorem clear_lines_colors_eq (g : GameState) :
    (clear_lines g).board_colors = (clear_lines_res g).2.1 := by
  simp only [clear_lines]
  split <;> split <;> rfl

/-! ## Claim theorems -/

/-- C1: clear_lines removes exactly the full rows.  The returned line count
equals the number k of full rows of the incoming board; the resulting board
is k all-empty rows on top of the non-full rows in their original order (so
every surviving row moves down by the number of cleared rows below it); and
the occupied-cell count drops by exactly k * 10.  This is proved for every
board, including boards with several simultaneously full rows and boards
where a row shifted into a just-cleared index is itself full, because
clearAuxF re-examines the same row index after each shift. -/
theorem clear_lines_clears_exactly_full_rows (g : GameState) :
    (clear_lines_res g).2.2 = fullCount (topRows g.board 20) ∧
    topRows (clear_lines g).board 20 =
      List.replicate (fullCount (topRows g.board 20)) zeroRow ++
        keepRows (topRows g.board 20) ∧
    occRows (topRows (clear_lines g).board 20) + 10 * fullCount (topRows g.board 20) =
      occRows (topRows g.board 20) := by
  have h := clearAuxF_spec (occBelow g.board 20 + 20) g.board g.board_colors 20 0
    (Nat.le_refl _)
  have hb : (clear_lines g).board = (clear_lines_res g).1 := clear_lines_board_eq g
  have h1 : (clear_lines_res g).2.2 = fullCount (topRows g.board 20) := by
    have := h.1
    rw [clear_lines_res]
    omega
  have h2 : topRows (clear_lines g).board 20 =
      List.replicate (fullCount (topRows g.board 20)) zeroRow ++
        keepRows (topRows g.board 20) := by
    rw [hb, clear_lines_res]
    exact h.2.1
  refine ⟨h1, h2, ?_⟩
  rw [h2, occRows_append, occRows_replicate_zeroRow]
  have := occRows_keep (topRows g.board 20) (rows_length_10 g.board)
  omega

/-- C2 (code bug): at a state whose score is close to INT_MAX, the score
update of clear_lines computes score + lines * 100 * level in 32-bit int
arithmetic, so the sum wraps to a negative value before the > INT_MAX guard
(which therefore never fires), and the stored score decreases instead of
saturating at INT_MAX. -/
theorem clear_lines_score_wraps :
    (clear_lines g_c2).score = -2147483296 ∧ (clear_lines g_c2).score < g_c2.score := by
  decide

/-- C10: a single clear_lines call increments the level at most once: the
resulting level is either unchanged or exactly one more than before. -/
theorem clear_lines_level_step (g : GameState) :
    ((clear_lines g).level = g.level ∨ (clear_lines g).level = g.level + 1) ∧
    (clear_lines g).level ≤ g.level + 1 := by
  have h : (clear_lines g).level = g.level ∨ (clear_lines g).level = g.level + 1 := by
    simp only [clear_lines]
    split <;> split
    · right; rfl
    · left; rfl
    · right; rfl
    · left; rfl
  refine ⟨h, ?_⟩
  rcases h with h | h <;> omega

/-! ## can_move, key handling, ticks -/

/-- The test can_move performs for a single cell (nx, ny), as an iff with the
four conditions of the specification. -/
theorem cellCheck_iff (bd : Board) (nx ny : Int) :
    (!(decide (nx < 0) || decide (10 ≤ nx) || decide (20 ≤ ny) ||
      (decide (0 ≤ ny) && decide (bd ny.toNat nx.toNat ≠ 0)))) = true ↔
    (0 ≤ nx ∧ nx < 10 ∧ ny < 20 ∧ (0 ≤ ny → bd ny.toNat nx.toNat = 0)) := by
  by_cases h1 : nx < 0 <;> by_cases h2 : (10 : Int) ≤ nx <;>
    by_cases h3 : (20 : Int) ≤ ny <;> by_cases h4 : (0 : Int) ≤ ny <;>
    by_cases h5 : bd ny.toNat nx.toNat = 0 <;>
    simp [h1, h2, h3, h4, h5] <;> omega

/-- C4: can_move returns true iff each of the 4 absolute cells
(current_x + offset.x + dx, current_y + offset.y + dy) satisfies x >= 0,
x < 10, y < 20, and, when y >= 0, the board cell at (x, y) is unoccupied;
cells with y < 0 are never tested against the board. -/
theorem can_move_iff (g : GameState) (dx dy : Int) :
    can_move g dx dy = true ↔
    ∀ i, i < 4 →
      0 ≤ g.current_x + (g.current_piece i).1 + dx ∧
      g.current_x + (g.current_piece i).1 + dx < 10 ∧
      g.current_y + (g.current_piece i).2 + dy < 20 ∧
      (0 ≤ g.current_y + (g.current_piece i).2 + dy →
        g.board (g.current_y + (g.current_piece i).2 + dy).toNat
          (g.current_x + (g.current_piece i).1 + dx).toNat = 0) := by
  rw [can_move, List.all_eq_true]
  constructor
  · intro h i hi
    exact (cellCheck_iff g.board _ _).mp (h i (List.mem_range.mpr hi))
  · intro h i hi
    exact (cellCheck_iff g.board _ _).mpr (h i (List.mem_range.mp hi))

/-- Witness for C4 at a concrete state. -/
theorem can_move_iff_witness : can_move gBottom 0 0 = true :=
  (can_move_iff gBottom 0 0).mpr (by decide)

/-- C7: while paused or after game over, the movement and rotation keys leave
the state unchanged, and a tick is a no-op: when paused it returns true
(continue) with the state unchanged, and after game over it leaves the state
unchanged and still in game over. -/
theorem inert_when_paused_or_over (g : GameState) (rnd : Nat) (k : Key)
    (hk : k ≠ Key.p) :
    (g.paused = true → key_press g k = g ∧ game_loop g rnd = (g, true)) ∧
    (g.game_over = true → key_press g k = g ∧ game_loop g rnd = (g, true) ∧
      (game_loop g rnd).1.game_over = true) := by
  constructor
  · intro hp
    constructor
    · by_cases hgo : g.game_over <;> simp [key_press, hk, hgo, hp]
    · simp [game_loop, hp]
  · intro hgo
    refine ⟨?_, ?_, ?_⟩
    · simp [key_press, hgo]
    · simp [game_loop, hgo]
    · simp [game_loop, hgo]

/-- Witness for C7 at concrete paused and game-over states. -/
theorem inert_when_paused_or_over_witness :
    gPaused.paused = true ∧ gOver.game_over = true ∧
    key_press gPaused Key.left = gPaused ∧ key_press gOver Key.left = gOver :=
  ⟨rfl, rfl,
   ((inert_when_paused_or_over gPaused 0 Key.left (by decide)).1 rfl).1,
   ((inert_when_paused_or_over gOver 0 Key.left (by decide)).2 rfl).1⟩

theorem land_piece_game_over (g : GameState) :
    (land_piece g).game_over = g.game_over := rfl

theorem new_piece_game_over (g : GameState) (rnd : Nat) :
    (new_piece g rnd).game_over = g.game_over := rfl

theorem clear_lines_game_over (g : GameState) :
    (clear_lines g).game_over = g.game_over := by
  simp only [clear_lines]
  split <;> split <;> rfl

/-- C3: when the active piece cannot move down in a running game, the tick
commits the piece (in-bounds cells get occupancy 1 and color current type
+ 1), runs the line clear with score/level update, spawns from the saved
next type with the fresh draw rnd, and then the game is over (and the clock
callback returns false, removing the tick source) iff can_move(0,0) fails
for the spawned piece. -/
theorem tick_landing_pipeline (g : GameState) (rnd : Nat)
    (hp : g.paused = false) (hgo : g.game_over = false)
    (hcm : can_move g 0 1 = false) :
    game_loop g rnd =
      (if can_move (new_piece (clear_lines (land_piece g)) rnd) 0 0 then
        (new_piece (clear_lines (land_piece g)) rnd, true)
      else
        ({ new_piece (clear_lines (land_piece g)) rnd with game_over := true },
          false)) ∧
    (new_piece (clear_lines (land_piece g)) rnd).game_over = false ∧
    ((game_loop g rnd).1.game_over = true ↔
      can_move (new_piece (clear_lines (land_piece g)) rnd) 0 0 = false) ∧
    ((game_loop g rnd).2 = false ↔
      can_move (new_piece (clear_lines (land_piece g)) rnd) 0 0 = false) ∧
    (∀ i, i < 4 → ∀ y x : Nat,
      g.current_x + (g.current_piece i).1 = (x : Int) →
      g.current_y + (g.current_piece i).2 = (y : Int) →
      x < 10 → y < 20 →
      (land_piece g).board y x = 1 ∧
      (land_piece g).board_colors y x = g.current_type + 1) := by
  have hglE : game_loop g rnd =
      (if can_move (new_piece (clear_lines (land_piece g)) rnd) 0 0 then
        (new_piece (clear_lines (land_piece g)) rnd, true)
      else
        ({ new_piece (clear_lines (land_piece g)) rnd with game_over := true },
          false)) := by
    simp [game_loop, hp, hgo, hcm]
  have hgo1 : (new_piece (clear_lines (land_piece g)) rnd).game_over = false := by
    rw [new_piece_game_over, clear_lines_game_over, land_piece_game_over]
    exact hgo
  refine ⟨hglE, hgo1, ?_, ?_, ?_⟩
  · rw [hglE]
    by_cases hc : can_move (new_piece (clear_lines (land_piece g)) rnd) 0 0 = true
    · simp [hc, hgo1]
    · simp only [Bool.not_eq_true] at hc
      simp [hc]
  · rw [hglE]
    by_cases hc : can_move (new_piece (clear_lines (land_piece g)) rnd) 0 0 = true
    · simp [hc]
    · simp only [Bool.not_eq_true] at hc
      simp [hc]
  · intro i hi y x hx hy hx10 hy20
    have hcell : isPieceCell g y x = true := by
      rw [isPieceCell, List.any_eq_true]
      refine ⟨i, List.mem_range.mpr hi, ?_⟩
      simp [hx, hy, hx10, hy20]
    constructor
    · show (if isPieceCell g y x then 1 else g.board y x) = 1
      simp [hcell]
    · show (if isPieceCell g y x then g.current_type + 1 else g.board_colors y x) =
        g.current_type + 1
      simp [hcell]

/-- Witness for C3 at a concrete state with the square piece on the floor. -/
theorem tick_landing_pipeline_witness :
    gBottom.paused = false ∧ gBottom.game_over = false ∧
    can_move gBottom 0 1 = false ∧
    ((game_loop gBottom 2).1.game_over = true ↔
      can_move (new_piece (clear_lines (land_piece gBottom)) 2) 0 0 = false) :=
  ⟨rfl, rfl, by decide,
   (tick_landing_pipeline gBottom 2 rfl rfl (by decide)).2.2.1⟩

/-- rotate_cand is an order-4 transform on states. -/
theorem rotate_cand_four (g : GameState) :
    rotate_cand (rotate_cand (rotate_cand (rotate_cand g))) = g := by
  cases g with
  | mk bd bc cx cy cp ct nt sc lv gs tp go pa =>
    simp [rotate_cand, Prod.mk.eta]

/-- C5: the rotation command applies (x, y) -> (y, -x) to every offset and
keeps the candidate iff can_move(0,0) holds for it, reverting fully
otherwise; four consecutive successful rotations restore the original state
(in particular the original offsets), and a blocked attempt reverts only its
own candidate (the state, including all prior successful rotations, is
unchanged). -/
theorem rotation_spec (g : GameState) :
    (can_move (rotate_cand g) 0 0 = true → rotate_piece g = rotate_cand g) ∧
    (can_move (rotate_cand g) 0 0 = false → rotate_piece g = g) ∧
    (can_move (rotate_cand g) 0 0 = true →
      can_move (rotate_cand (rotate_piece g)) 0 0 = true →
      can_move (rotate_cand (rotate_piece (rotate_piece g))) 0 0 = true →
      can_move (rotate_cand (rotate_piece (rotate_piece (rotate_piece g)))) 0 0 = true →
      rotate_piece (rotate_piece (rotate_piece (rotate_piece g))) = g) := by
  refine ⟨?_, ?_, ?_⟩
  · intro h1
    simp [rotate_piece, h1]
  · intro h1
    simp [rotate_piece, h1]
  · intro h1 h2 h3 h4
    have e1 : rotate_piece g = rotate_cand g := by simp [rotate_piece, h1]
    rw [e1] at h2
    have e2 : rotate_piece (rotate_piece g) = rotate_cand (rotate_cand g) := by
      rw [e1]
      simp [rotate_piece, h2]
    rw [e2] at h3
    have e3 : rotate_piece (rotate_piece (rotate_piece g)) =
        rotate_cand (rotate_cand (rotate_cand g)) := by
      rw [e2]
      simp [rotate_piece, h3]
    rw [e3] at h4
    rw [e3]
    simp only [rotate_piece, h4, if_true]
    exact rotate_cand_four g

/-- Witness for C5 at a concrete state where all four rotations succeed. -/
theorem rotation_spec_witness :
    can_move (rotate_cand gRot) 0 0 = true ∧
    rotate_piece (rotate_piece (rotate_piece (rotate_piece gRot))) = gRot :=
  ⟨by decide,
   (rotation_spec gRot).2.2 (by decide) (by decide) (by decide) (by decide)⟩

/-! ## clear_lines field characterizations -/

theorem clear_lines_score_eq (g : GameState) :
    (clear_lines g).score = s1Of g := by
  by_cases hw : wrap32 (g.score + ((clear_lines_res g).2.2 : Int) * 100 * g.level) > INT_MAX
  · simp only [clear_lines, s1Of]
    rw [if_pos hw]
    split <;> rfl
  · simp only [clear_lines, s1Of]
    rw [if_neg hw]
    split <;> rfl

theorem clear_lines_level_pos (g : GameState)
    (hcond : s1Of g ≥ g.level * 5000 ∧ g.level < 10) :
    (clear_lines g).level = g.level + 1 ∧
    (clear_lines g).game_speed = 500 / (g.level + 1) ∧
    (clear_lines g).timeout_period = 500 / (g.level + 1) := by
  simp only [s1Of] at hcond
  simp only [clear_lines]
  rw [if_pos hcond]
  exact ⟨rfl, rfl, rfl⟩

theorem clear_lines_level_neg (g : GameState)
    (hcond : ¬(s1Of g ≥ g.level * 5000 ∧ g.level < 10)) :
    (clear_lines g).level = g.level ∧
    (clear_lines g).game_speed = g.game_speed ∧
    (clear_lines g).timeout_period = g.timeout_period := by
  simp only [s1Of] at hcond
  simp only [clear_lines]
  rw [if_neg hcond]
  exact ⟨rfl, rfl, rfl⟩

/-! ## Invariant preservation and reachable states -/

theorem clearAuxF_cellwise (P : Nat → Nat → Prop) (h0 : P 0 0) :
    ∀ (fuel : Nat) (b c : Board) (yy lines : Nat),
      (∀ y x, P (b y x) (c y x)) →
      ∀ y x,
        P ((clearAuxF fuel b c yy lines).1 y x)
          ((clearAuxF fuel b c yy lines).2.1 y x) := by
  intro fuel
  induction fuel with
  | zero =>
    intro b c yy lines h y x
    exact h y x
  | succ fuel ih =>
    intro b c yy lines h y x
    match yy with
    | 0 => exact h y x
    | yv + 1 =>
      by_cases hf : rowFull b yv = true
      · have hstep : clearAuxF (fuel + 1) b c (yv + 1) lines =
            clearAuxF fuel (shiftDown b yv) (shiftDown c yv) (yv + 1) (lines + 1) := by
          simp [clearAuxF, hf]
        rw [hstep]
        apply ih
        intro y2 x2
        by_cases hz : y2 = 0
        · simp only [shiftDown, hz, if_pos]
          simpa using h0
        · by_cases hle : y2 ≤ yv
          · simp only [shiftDown, hz, hle, if_neg, if_pos, ite_true, ite_false]
            simpa [hz, hle] using h (y2 - 1) x2
          · simp only [shiftDown]
            simpa [hz, hle] using h y2 x2
      · have hf2 : rowFull b yv = false := by
          cases hb : rowFull b yv
          · rfl
          · exact absurd hb hf
        have hstep : clearAuxF (fuel + 1) b c (yv + 1) lines =
            clearAuxF fuel b c yv lines := by
          simp [clearAuxF, hf2]
        rw [hstep]
        exact ih b c yv lines h y x

theorem CellInv_land (g : GameState) (hI : CellInv g) (ht : g.current_type < 7) :
    CellInv (land_piece g) := by
  intro y x
  by_cases hc : isPieceCell g y x = true
  · simp only [land_piece, hc]
    constructor
    · simp
    · simp
      omega
  · simp only [Bool.not_eq_true] at hc
    simp only [land_piece, hc]
    simpa using hI y x

theorem CellInv_clear_lines (g : GameState) (hI : CellInv g) :
    CellInv (clear_lines g) := by
  intro y x
  rw [show (clear_lines g).board = (clear_lines_res g).1 from clear_lines_board_eq g,
      show (clear_lines g).board_colors = (clear_lines_res g).2.1 from
        clear_lines_colors_eq g]
  exact clearAuxF_cellwise (fun a b => (a ≠ 0 ↔ b ≠ 0) ∧ b ≤ 7) (by simp)
    (occBelow g.board 20 + 20) g.board g.board_colors 20 0 (fun y2 x2 => hI y2 x2) y x

theorem clear_lines_type_eq (g : GameState) :
    (clear_lines g).current_type = g.current_type := by
  simp only [clear_lines]
  split <;> split <;> rfl

theorem clear_lines_next_eq (g : GameState) :
    (clear_lines g).next_type = g.next_type := by
  simp only [clear_lines]
  split <;> split <;> rfl

theorem Inv_clear_lines (g : GameState) (hI : Inv g) : Inv (clear_lines g) := by
  obtain ⟨hc, ht, hn, hl1, hl2⟩ := hI
  refine ⟨CellInv_clear_lines g hc, ?_, ?_, ?_, ?_⟩
  · rw [clear_lines_type_eq]; exact ht
  · rw [clear_lines_next_eq]; exact hn
  · by_cases hcond : s1Of g ≥ g.level * 5000 ∧ g.level < 10
    · rw [(clear_lines_level_pos g hcond).1]; omega
    · rw [(clear_lines_level_neg g hcond).1]; exact hl1
  · by_cases hcond : s1Of g ≥ g.level * 5000 ∧ g.level < 10
    · rw [(clear_lines_level_pos g hcond).1]; omega
    · rw [(clear_lines_level_neg g hcond).1]; exact hl2

theorem Inv_land (g : GameState) (hI : Inv g) : Inv (land_piece g) :=
  ⟨CellInv_land g hI.1 hI.2.1, hI.2.1, hI.2.2.1, hI.2.2.2.1, hI.2.2.2.2⟩

theorem Inv_new_piece (g : GameState) (hI : Inv g) (rnd : Nat) (hr : rnd < 7) :
    Inv (new_piece g rnd) := by
  obtain ⟨hc, ht, hn, hl1, hl2⟩ := hI
  exact ⟨fun y x => hc y x, hn, hr, hl1, hl2⟩

theorem Inv_toggle (g : GameState) (hI : Inv g) : Inv (toggle_pause g) := by
  unfold toggle_pause
  split
  · exact hI
  · exact hI

theorem Inv_rotate (g : GameState) (hI : Inv g) : Inv (rotate_piece g) := by
  unfold rotate_piece
  split
  · exact hI
  · exact hI

theorem Inv_key_press (g : GameState) (k : Key) (hI : Inv g) :
    Inv (key_press g k) := by
  by_cases hgo : g.game_over = true
  · simp [key_press, hgo]
    exact hI
  · simp only [Bool.not_eq_true] at hgo
    cases k with
    | p =>
      simp [key_press, hgo]
      exact Inv_toggle g hI
    | left =>
      simp [key_press, hgo]
      split
      · exact hI
      · split
        · exact hI
        · exact hI
    | right =>
      simp [key_press, hgo]
      split
      · exact hI
      · split
        · exact hI
        · exact hI
    | down =>
      simp [key_press, hgo]
      split
      · exact hI
      · split
        · exact hI
        · exact hI
    | up =>
      simp [key_press, hgo]
      split
      · exact hI
      · exact Inv_rotate g hI
    | other =>
      simp [key_press, hgo]
      exact hI

theorem Inv_game_loop (g : GameState) (rnd : Nat) (hr : rnd < 7) (hI : Inv g) :
    Inv ((game_loop g rnd).1) := by
  simp only [game_loop]
  split
  · exact hI
  · split
    · exact hI
    · split
      · exact Inv_new_piece _ (Inv_clear_lines _ (Inv_land _ hI)) rnd hr
      · exact Inv_new_piece _ (Inv_clear_lines _ (Inv_land _ hI)) rnd hr

theorem Inv_init_next (r0 : Nat) (h0 : r0 < 7) :
    Inv { init_game_state with next_type := r0 } :=
  ⟨fun y x => ⟨Iff.rfl, show (0 : Nat) ≤ 7 by decide⟩, show (0 : Nat) < 7 by decide,
   h0, show (1 : Int) ≤ 1 by decide, show (1 : Int) ≤ 10 by decide⟩

theorem Inv_start_new_game (r : Nat) (hr : r < 7) : Inv (start_new_game r) :=
  Inv_new_piece _
    ⟨fun y x => ⟨Iff.rfl, show (0 : Nat) ≤ 7 by decide⟩, show (0 : Nat) < 7 by decide,
     show (0 : Nat) < 7 by decide, show (1 : Int) ≤ 1 by decide,
     show (1 : Int) ≤ 10 by decide⟩
    r hr

/-- Every reachable state satisfies the full invariant. -/
theorem reachable_inv : ∀ g : GameState, Reachable g → Inv g := by
  intro g hg
  induction hg with
  | boot r0 r1 h0 h1 =>
    exact Inv_new_piece _ (Inv_init_next r0 h0) r1 h1
  | newgame r hr g2 hg2 ih => exact Inv_start_new_game r hr
  | pauseButton g2 hg2 ih => exact Inv_toggle g2 ih
  | key g2 k hg2 ih => exact Inv_key_press g2 k ih
  | tick g2 r hr hg2 ih => exact Inv_game_loop g2 r hr ih

/-- C6: in every reachable state the level is in 1..10; clear_lines changes
the level iff the updated score reaches level * 5000 while the level is
below 10; and on a change it increases by exactly one, the tick period
becomes 500 / level, and the tick source is re-registered at exactly that
period. -/
theorem level_progression (g : GameState) (hg : Reachable g) :
    1 ≤ g.level ∧ g.level ≤ 10 ∧
    ((clear_lines g).level ≠ g.level ↔
      ((clear_lines g).score ≥ g.level * 5000 ∧ g.level < 10)) ∧
    ((clear_lines g).level ≠ g.level →
      (clear_lines g).level = g.level + 1 ∧
      (clear_lines g).game_speed = 500 / (clear_lines g).level ∧
      (clear_lines g).timeout_period = (clear_lines g).game_speed) := by
  obtain ⟨-, -, -, hl1, hl2⟩ := reachable_inv g hg
  have hsc := clear_lines_score_eq g
  refine ⟨hl1, hl2, ⟨?_, ?_⟩, ?_⟩
  · intro hne
    by_cases hcond : s1Of g ≥ g.level * 5000 ∧ g.level < 10
    · rw [hsc]
      exact hcond
    · exact absurd (clear_lines_level_neg g hcond).1 hne
  · intro hcond
    rw [hsc] at hcond
    have he := (clear_lines_level_pos g hcond).1
    omega
  · intro hne
    by_cases hcond : s1Of g ≥ g.level * 5000 ∧ g.level < 10
    · obtain ⟨e1, e2, e3⟩ := clear_lines_level_pos g hcond
      refine ⟨e1, ?_, ?_⟩
      · rw [e2, e1]
      · rw [e3, e2]
    · exact absurd (clear_lines_level_neg g hcond).1 hne

/-- Witness for C6 at the boot state. -/
theorem level_progression_witness : 1 ≤ gBoot.level ∧ gBoot.level ≤ 10 :=
  ⟨(level_progression gBoot (Reachable.boot 0 1 (by decide) (by decide))).1,
   (level_progression gBoot (Reachable.boot 0 1 (by decide) (by decide))).2.1⟩

/-- C8: in every reachable state every board cell (y < 20, x < 10) is
occupied iff its color index is nonzero and the color index is in 0..7; the
current piece type is in 0..6, and committing a piece writes no color other
than current type + 1 (all other cells keep their color). -/
theorem reachable_cell_invariant (g : GameState) (hg : Reachable g) :
    (∀ y x : Nat, y < 20 → x < 10 →
      ((g.board y x ≠ 0 ↔ g.board_colors y x ≠ 0) ∧ g.board_colors y x ≤ 7)) ∧
    g.current_type < 7 ∧
    (∀ y x : Nat,
      (land_piece g).board_colors y x = g.board_colors y x ∨
      (land_piece g).board_colors y x = g.current_type + 1) := by
  obtain ⟨hc, ht, -, -, -⟩ := reachable_inv g hg
  refine ⟨fun y x _ _ => hc y x, ht, ?_⟩
  intro y x
  by_cases hcell : isPieceCell g y x = true
  · right
    simp [land_piece, hcell]
  · left
    simp only [Bool.not_eq_true] at hcell
    simp [land_piece, hcell]

/-- Witness for C8 at the boot state. -/
theorem reachable_cell_invariant_witness : gBoot.current_type < 7 :=
  (reachable_cell_invariant gBoot (Reachable.boot 0 1 (by decide) (by decide))).2.1

/-- C9 counterexample: spawning the square piece on the empty board places
the anchor at x = 3 (BOARD_WIDTH / 2 - 2), not at x = 4 as claimed. -/
theorem spawn_anchor_is_three_not_four :
    gSq.current_x = 3 ∧ ¬(gSq.current_x = 4) := by decide

/-- C9 (amended): on the empty board the square piece spawns with anchor
(3, 0); from there each MoveDown succeeds, advancing the anchor one row per
command, until y = 18, where can_move(0,1) is false (the piece occupies rows
18 and 19). -/
theorem square_descent :
    gSq.current_x = 3 ∧ gSq.current_y = 0 ∧
    (∀ k, k < 18 → can_move (stepDown^[k] gSq) 0 1 = true ∧
      (stepDown^[k] gSq).current_y = (k : Int)) ∧
    can_move (stepDown^[18] gSq) 0 1 = false := by decide

end GtkTetris
